/-
Verification of the ClickHouse coordination-service specification and of
`fromDaysSinceYearZero` against their sources.

Part 1 embeds `FunctionFromDaysSinceYearZero::execute` from
`src/Functions/fromDaysSinceYearZero.cpp` (the per-row loop for the
`Saturate` and `Throw` overflow behaviors, for both trait instantiations
`DateTraits` and `DateTraits32`).

Part 2 models the Raft-replicated coordination core (StateStore,
SessionRegistry, StateMachine, ConsensusServer).  Its implementation files
are not available (only the declaration header `NuKeeperServer.h` is), so
the model is built from the specification's words, as marked on each
definition.
-/
import Mathlib

set_option linter.unusedVariables false

namespace FromDays

/-- Modelled from the spec: the constant `DAYS_BETWEEN_YEARS_0_AND_1970`
comes from `Common/DateLUT.h`, which is not under src/.  Its value is fixed
by the supported ranges documented for the function: day number 719528
(the `Date` minimum, 1970-01-01) must map to the value 0. -/
def DAYS_BETWEEN_YEARS_0_AND_1970 : Int := 719528

/-- `static_cast<Int64>(raw_value)` in the source: two's-complement
wrap-around into the 64-bit signed range.  On every raw value actually
producible by the eight source column types (`UInt8 .. UInt32`,
`Int8 .. Int64`) except `UInt64` this is the identity; `UInt64` values
at or above `2^63` wrap to negatives. -/
def toInt64cast (v : Int) : Int := (v + 2 ^ 63) % 2 ^ 64 - 2 ^ 63

/-- `static_cast<UInt16>` — the `RawReturnType` cast for `DataTypeDate`. -/
def castUInt16 (v : Int) : Int := v % 2 ^ 16

/-- `static_cast<Int32>` — the `RawReturnType` cast for `DataTypeDate32`. -/
def castInt32 (v : Int) : Int := (v + 2 ^ 31) % 2 ^ 32 - 2 ^ 31

/-- The compile-time data of one traits struct: the supported day range. -/
structure TraitsData where
  min_days : Int
  max_days : Int
deriving DecidableEq

/-- `DateTraits` from the source: range of `DataTypeDate`. -/
def DateTraits : TraitsData := ⟨719528, 785063⟩

/-- `DateTraits32` from the source: range of `DataTypeDate32`. -/
def DateTraits32 : TraitsData := ⟨693961, 840056⟩

/-- One iteration of the `Saturate` branch of `execute`: cast the raw value
to `Int64`, clamp into `[min_days, max_days]`, subtract
`DAYS_BETWEEN_YEARS_0_AND_1970`, cast to the return type. -/
def saturateRow (T : TraitsData) (castRet : Int → Int) (raw : Int) : Int :=
  let value := toInt64cast raw
  let clamped :=
    if value < T.min_days then T.min_days
    else if value > T.max_days then T.max_days
    else value
  castRet (clamped - DAYS_BETWEEN_YEARS_0_AND_1970)

/-- `execute<Saturate, T>`: the whole column, row by row. -/
def executeSaturate (T : TraitsData) (castRet : Int → Int) (src : List Int) :
    List Int :=
  src.map (saturateRow T castRet)

/-- `execute<Throw, T>`: writes rows until the first out-of-range value,
at which point the exception (carrying the offending `Int64` value)
propagates and the whole result column is discarded. -/
def executeThrow (T : TraitsData) (castRet : Int → Int) :
    List Int → Except Int (List Int)
  | [] => .ok []
  | raw :: rest =>
    let value := toInt64cast raw
    if value < T.min_days ∨ value > T.max_days then .error value
    else
      match executeThrow T castRet rest with
      | .error e => .error e
      | .ok tl => .ok (castRet (value - DAYS_BETWEEN_YEARS_0_AND_1970) :: tl)

/-- `true` exactly when the `Throw` run raised the
`VALUE_IS_OUT_OF_RANGE_OF_DATA_TYPE` exception. -/
def throwRaised (T : TraitsData) (castRet : Int → Int) (src : List Int) :
    Bool :=
  match executeThrow T castRet src with
  | .error _ => true
  | .ok _ => false

end FromDays

namespace Coord

/-- Modelled from the spec: session ids ("identified by a 64-bit id issued
by the cluster on creation", §3); ids are issued by a counter, so naturals
suffice.  The implementation files (`NuKeeperStorage`,
`NuKeeperStateMachine`, `NuKeeperServer` bodies) are not under src/ — only
the declaration header `NuKeeperServer.h` is — so the whole `Coord`
namespace is modelled from the specification. -/
abbrev SessionId := Nat

/-- Modelled from the spec: one component of a node path.  A sequential
node "gets a unique, increasing numeric suffix assigned by its parent"
(§GLOSSARY); the suffix is kept structurally (`seq`) rather than rendered
into decimal digits, which only matters for wire formatting. -/
structure Component where
  name : String
  seq : Option Nat
deriving DecidableEq

/-- A path is the list of components from the root (the empty list). -/
abbrev Path := List Component

/-- Modelled from the spec §3: a node's attributes — `data`, `version`
(bumped on every data write), `cversion` (bumped on every child
add/remove), `ephemeralOwner`, `sequenceCounter`. -/
structure Node where
  data : List Nat
  version : Nat
  cversion : Nat
  ephemeralOwner : Option SessionId
  sequenceCounter : Nat
deriving DecidableEq

/-- Modelled from the spec §3: a session's attributes (`timeoutMillis`,
`lastTouch` as committed logical time).  The owned-ephemeral set is kept
implicitly, as the nodes of the tree whose `ephemeralOwner` is this
session. -/
structure Session where
  timeoutMillis : Nat
  lastTouch : Nat
deriving DecidableEq

/-- Association-list lookup used for the namespace tree and the session
table: first binding of the key wins. -/
def alookup {α β : Type} [DecidableEq α] : List (α × β) → α → Option β
  | [], _ => none
  | (k, v) :: rest, q => if k = q then some v else alookup rest q

/-- Replace the value bound to a key (first binding only; keys are unique
in every reachable state). -/
def aupdate {α β : Type} [DecidableEq α] (c : List (α × β)) (q : α) (v : β) :
    List (α × β) :=
  match c with
  | [] => []
  | (k, w) :: rest => if k = q then (k, v) :: rest else (k, w) :: aupdate rest q v

/-- Remove every binding of a key. -/
def aremove {α β : Type} [DecidableEq α] (c : List (α × β)) (q : α) :
    List (α × β) :=
  c.filter fun kv => decide (kv.1 ≠ q)

/-- Modelled from the spec §4.2: the in-memory hierarchical namespace,
"mutated only by applying committed operations". -/
structure StateStore where
  container : List (Path × Node)
deriving DecidableEq

/-- Typed failures of §6: every client operation result is `Ok(value)` or
one of these. -/
inductive KErr
  | NodeExists
  | NotFound
  | NotEmpty
  | VersionMismatch
  | NoParent
  | SessionExpired
  | NotLeader
  | ShuttingDown
deriving DecidableEq

instance {ε α : Type} [DecidableEq ε] [DecidableEq α] :
    DecidableEq (Except ε α) := fun a b =>
  match a, b with
  | .ok x, .ok y =>
    if h : x = y then .isTrue (by rw [h])
    else .isFalse (by simp [h])
  | .error x, .error y =>
    if h : x = y then .isTrue (by rw [h])
    else .isFalse (by simp [h])
  | .ok _, .error _ => .isFalse (by simp)
  | .error _, .ok _ => .isFalse (by simp)

/-- `q` is a direct child path of `p`. -/
def isChildOf (q p : Path) : Bool :=
  decide (q ≠ [] ∧ q.dropLast = p)

/-- The node at `p` has at least one child in the tree. -/
def hasChild (c : List (Path × Node)) (p : Path) : Bool :=
  c.any fun kv => isChildOf kv.1 p

/-- Modelled from the spec §4.2: `create(path, data, isEphemeral,
isSequential, ownerSession)`.  Fails `NoParent` if the parent path is
absent; when sequential, the final path carries a suffix taken from the
parent's `sequenceCounter`, which is then incremented ("suffix assignment
happens only at apply time", §9); fails `NodeExists` if the final path is
already present.  On success the parent's `cversion` is bumped and the new
node starts at `version = 0`.  Every failure returns the input state
unchanged (§7: "no namespace mutation is applied partially"). -/
def create (st : StateStore) (path : Path) (d : List Nat)
    (isEphemeral isSequential : Bool) (owner : SessionId) :
    Except KErr Path × StateStore :=
  match path.getLast? with
  | none => (.error .NoParent, st)
  | some lastC =>
    match alookup st.container path.dropLast with
    | none => (.error .NoParent, st)
    | some pn =>
      match alookup st.container
          (if isSequential then
            path.dropLast ++ [⟨lastC.name, some pn.sequenceCounter⟩]
          else path) with
      | some _ => (.error .NodeExists, st)
      | none =>
        (.ok
            (if isSequential then
              path.dropLast ++ [⟨lastC.name, some pn.sequenceCounter⟩]
            else path),
          ⟨aupdate st.container path.dropLast
              { pn with
                cversion := pn.cversion + 1
                sequenceCounter :=
                  if isSequential then pn.sequenceCounter + 1
                  else pn.sequenceCounter } ++
            [((if isSequential then
                path.dropLast ++ [⟨lastC.name, some pn.sequenceCounter⟩]
              else path),
              ⟨d, 0, 0, if isEphemeral then some owner else none, 0⟩)]⟩)

/-- Modelled from the spec §4.2: `delete(path, expectedVersion)` — fails
`NotFound` if absent, `VersionMismatch` if `expectedVersion != -1` and
does not match `node.version`, `NotEmpty` if children exist; otherwise
removes the node and bumps the parent's `cversion`.  Failures leave the
state untouched. -/
def delete (st : StateStore) (path : Path) (expectedVersion : Int) :
    Except KErr Unit × StateStore :=
  match alookup st.container path with
  | none => (.error .NotFound, st)
  | some n =>
    if expectedVersion ≠ -1 ∧ expectedVersion ≠ (n.version : Int) then
      (.error .VersionMismatch, st)
    else if hasChild st.container path then (.error .NotEmpty, st)
    else
      (.ok (),
        ⟨match alookup (aremove st.container path) path.dropLast with
          | some pn =>
            aupdate (aremove st.container path) path.dropLast
              { pn with cversion := pn.cversion + 1 }
          | none => aremove st.container path⟩)

/-- Modelled from the spec §4.2: `setData(path, data, expectedVersion)` —
same version-check rule as `delete`; bumps `version` on success.  Failures
leave the state untouched. -/
def setData (st : StateStore) (path : Path) (d : List Nat)
    (expectedVersion : Int) : Except KErr Unit × StateStore :=
  match alookup st.container path with
  | none => (.error .NotFound, st)
  | some n =>
    if expectedVersion ≠ -1 ∧ expectedVersion ≠ (n.version : Int) then
      (.error .VersionMismatch, st)
    else
      (.ok (),
        ⟨aupdate st.container path { n with data := d, version := n.version + 1 }⟩)

/-- Modelled from the spec §4.2: `exists(path)` — side-effect-free, fails
with `NotFound` when applicable. -/
def existsOp (st : StateStore) (path : Path) : Except KErr Node :=
  match alookup st.container path with
  | none => .error .NotFound
  | some n => .ok n

/-- Modelled from the spec §3: the three mutation kinds a watch can be
triggered by — data change, child-list change, node deletion. -/
inductive WatchKind
  | dataChange
  | childChange
  | deletion
deriving DecidableEq

/-- Modelled from the spec §3: a one-shot registration of
(session, path, watch-kind). -/
structure Watch where
  session : SessionId
  path : Path
  kind : WatchKind
deriving DecidableEq

/-- Modelled from the spec §4.3: the session table plus the id counter
for newly created sessions. -/
structure SessionRegistry where
  sessions : List (SessionId × Session)
  nextSessionId : SessionId
deriving DecidableEq

/-- Modelled from the spec §4.4: the state machine's state is
`{lastAppliedIndex, StateStore, SessionRegistry}`; the registered watches
are kept alongside (§3 puts each watch in its owning session's set; a flat
table keyed by (session, path, kind) is the same data). -/
structure StateMachine where
  lastAppliedIndex : Nat
  store : StateStore
  registry : SessionRegistry
  watches : List Watch
deriving DecidableEq

/-- Modelled from the spec §6: the typed operations a committed log entry
can carry. -/
inductive Operation
  | create (path : Path) (d : List Nat) (isEphemeral isSequential : Bool)
  | del (path : Path) (expectedVersion : Int)
  | setData (path : Path) (d : List Nat) (expectedVersion : Int)
  | registerWatch (path : Path) (kind : WatchKind)
  | newSession (timeoutMillis : Nat)
  | closeSession (sid : SessionId)
deriving DecidableEq

/-- Modelled from the spec §3: a log entry
`(index, term, operation, originatingSessionId, requestId)`. -/
structure LogEntry where
  index : Nat
  term : Nat
  op : Operation
  sessionId : SessionId
  requestId : Nat
deriving DecidableEq

/-- The payload of a response produced by applying one entry. -/
inductive RespVal
  | okUnit
  | okPath (p : Path)
  | okSession (s : SessionId)
  | failure (e : KErr)
deriving DecidableEq

/-- Modelled from the spec §4.4: the `(response, originatingSessionId,
requestId)` triple handed to the ResponseQueue, together with the watch
notifications fired by this apply step (§4.2: "firing is part of the
deterministic apply step"). -/
structure Response where
  sessionId : SessionId
  requestId : Nat
  value : RespVal
  notifications : List Watch
deriving DecidableEq

/-- Does watch `w` match one of the mutation events of this apply step? -/
def watchHit (w : Watch) (events : List (Path × WatchKind)) : Bool :=
  events.any fun ev => decide (ev.1 = w.path ∧ ev.2 = w.kind)

/-- The watches fired by the given events (every matching registration
fires) and the remaining registrations (fired ones are consumed, §3). -/
def fireWatches (ws : List Watch) (events : List (Path × WatchKind)) :
    List Watch × List Watch :=
  (ws.filter fun w => watchHit w events,
   ws.filter fun w => !watchHit w events)

/-- The mutation events of a successful `create` of `fp`: the parent's
child list changed. -/
def createEvents (fp : Path) : List (Path × WatchKind) :=
  [(fp.dropLast, .childChange)]

/-- The mutation events of a successful `delete` of `p`: the node was
deleted and the parent's child list changed. -/
def deleteEvents (p : Path) : List (Path × WatchKind) :=
  [(p, .deletion), (p.dropLast, .childChange)]

/-- The mutation events of a successful `setData` on `p`. -/
def setDataEvents (p : Path) : List (Path × WatchKind) :=
  [(p, .dataChange)]

/-- Modelled from the spec §4.4: apply one decoded operation for the
originating session — delegate namespace operations to the StateStore
(packaging result or typed failure as the response and firing matching
watches on success), session operations to the SessionRegistry.
`closeSession` (§4.3) deletes every ephemeral node owned by the session
and removes the session (and with it the watches it registered). -/
def applyOp (sm : StateMachine) (sid : SessionId) (op : Operation) :
    StateMachine × RespVal × List Watch :=
  match op with
  | .create path d isEphemeral isSequential =>
    match create sm.store path d isEphemeral isSequential sid with
    | (.ok fp, st2) =>
      ({ sm with
          store := st2
          watches := (fireWatches sm.watches (createEvents fp)).2 },
        .okPath fp, (fireWatches sm.watches (createEvents fp)).1)
    | (.error e, _) => (sm, .failure e, [])
  | .del path expectedVersion =>
    match delete sm.store path expectedVersion with
    | (.ok _, st2) =>
      ({ sm with
          store := st2
          watches := (fireWatches sm.watches (deleteEvents path)).2 },
        .okUnit, (fireWatches sm.watches (deleteEvents path)).1)
    | (.error e, _) => (sm, .failure e, [])
  | .setData path d expectedVersion =>
    match setData sm.store path d expectedVersion with
    | (.ok _, st2) =>
      ({ sm with
          store := st2
          watches := (fireWatches sm.watches (setDataEvents path)).2 },
        .okUnit, (fireWatches sm.watches (setDataEvents path)).1)
    | (.error e, _) => (sm, .failure e, [])
  | .registerWatch path kind =>
    ({ sm with watches := sm.watches ++ [⟨sid, path, kind⟩] }, .okUnit, [])
  | .newSession timeoutMillis =>
    let s := sm.registry.nextSessionId
    ({ sm with
        registry :=
          ⟨sm.registry.sessions ++ [(s, ⟨timeoutMillis, sm.lastAppliedIndex⟩)],
           s + 1⟩ },
      .okSession s, [])
  | .closeSession target =>
    ({ sm with
        store :=
          ⟨sm.store.container.filter fun kv =>
            decide (kv.2.ephemeralOwner ≠ some target)⟩
        registry := ⟨aremove sm.registry.sessions target, sm.registry.nextSessionId⟩
        watches := sm.watches.filter fun w => decide (w.session ≠ target) },
      .okUnit, [])

/-- Modelled from the spec §4.4: `apply(entry)` — never re-applies an
entry with `index ≤ lastAppliedIndex` (idempotent restart guard);
otherwise applies the operation and updates `lastAppliedIndex` to
`entry.index` atomically with the mutation, producing the response for
the ResponseQueue. -/
def applyEntry (sm : StateMachine) (e : LogEntry) :
    StateMachine × Option Response :=
  if e.index ≤ sm.lastAppliedIndex then (sm, none)
  else
    ({ (applyOp sm e.sessionId e.op).1 with lastAppliedIndex := e.index },
      some ⟨e.sessionId, e.requestId, (applyOp sm e.sessionId e.op).2.1,
        (applyOp sm e.sessionId e.op).2.2⟩)

/-- The state part of one apply step. -/
def stepState (sm : StateMachine) (e : LogEntry) : StateMachine :=
  (applyEntry sm e).1

/-- Replay a sequence of committed entries, in order. -/
def replay (es : List LogEntry) (sm : StateMachine) : StateMachine :=
  es.foldl stepState sm

/-- A fresh replica: empty tree except the root node, no sessions, no
watches, nothing applied yet. -/
def freshState : StateMachine :=
  ⟨0, ⟨[([], ⟨[], 0, 0, none, 0⟩)]⟩, ⟨[], 1⟩, []⟩

/-- Modelled from the spec §2: a replica run is a sequence of apply steps
on committed entries in order; `ReplayRun sm es sm2` says a replica that
starts in `sm` and applies the committed entries `es`, one step at a time,
ends in `sm2`. -/
inductive ReplayRun : StateMachine → List LogEntry → StateMachine → Prop
  | nil (sm : StateMachine) : ReplayRun sm [] sm
  | cons {sm sm2 sm3 : StateMachine} {e : LogEntry} {es : List LogEntry} :
      stepState sm e = sm2 → ReplayRun sm2 es sm3 → ReplayRun sm (e :: es) sm3

/-- Modelled from the spec §3: a snapshot is "a point-in-time serialization
of the full namespace tree, the session table ... and the last-applied log
index". -/
structure Snapshot where
  tree : List (Path × Node)
  sessionTable : List (SessionId × Session)
  nextSessionId : SessionId
  watchTable : List Watch
  lastApplied : Nat
deriving DecidableEq

/-- Modelled from the spec §4.4: `takeSnapshot()` serializes the current
state. -/
def takeSnapshot (sm : StateMachine) : Snapshot :=
  ⟨sm.store.container, sm.registry.sessions, sm.registry.nextSessionId,
   sm.watches, sm.lastAppliedIndex⟩

/-- Modelled from the spec §4.4: `restore(snapshot)` replaces StateStore,
SessionRegistry and `lastAppliedIndex` wholesale. -/
def restore (snap : Snapshot) : StateMachine :=
  ⟨snap.lastApplied, ⟨snap.tree⟩, ⟨snap.sessionTable, snap.nextSessionId⟩,
   snap.watchTable⟩

/-- Modelled from the spec §4.5: the consensus-server state the claims
touch — leadership, the proposals accepted for replication, and this
replica's state machine (commit and apply are asynchronous, §2). -/
structure ConsensusServer where
  leader : Bool
  proposals : List (SessionId × Operation)
  machine : StateMachine
deriving DecidableEq

/-- Modelled from the spec §4.5: `putRequest(sessionId, operation)` — if
not leader, fails with `NotLeader` (never silently dropped); otherwise the
operation is appended to the proposals accepted for replication and the
call returns, without waiting for commit (the state machine is not
touched). -/
def putRequest (srv : ConsensusServer) (sid : SessionId) (op : Operation) :
    Except KErr Unit × ConsensusServer :=
  if srv.leader then
    (.ok (), { srv with proposals := srv.proposals ++ [(sid, op)] })
  else (.error .NotLeader, srv)

end Coord

namespace FromDays

theorem getD_map (f : Int → Int) (l : List Int) (i : Nat) (hi : i < l.length) :
    (l.map f).getD i 0 = f (l.getD i 0) := by
  induction l generalizing i with
  | nil => simp at hi
  | cons a t ih =>
    cases i with
    | zero => simp
    | succ n =>
      simp only [List.map_cons, List.getD_cons_succ]
      exact ih n (by simpa using hi)

theorem saturateRow_date (raw : Int) :
    saturateRow DateTraits castUInt16 raw =
      (if toInt64cast raw < DateTraits.min_days then DateTraits.min_days
       else if toInt64cast raw > DateTraits.max_days then DateTraits.max_days
       else toInt64cast raw) - DAYS_BETWEEN_YEARS_0_AND_1970 := by
  simp only [saturateRow, castUInt16, DateTraits, toInt64cast,
    DAYS_BETWEEN_YEARS_0_AND_1970]
  split_ifs <;> omega

theorem saturateRow_date32 (raw : Int) :
    saturateRow DateTraits32 castInt32 raw =
      (if toInt64cast raw < DateTraits32.min_days then DateTraits32.min_days
       else if toInt64cast raw > DateTraits32.max_days then DateTraits32.max_days
       else toInt64cast raw) - DAYS_BETWEEN_YEARS_0_AND_1970 := by
  simp only [saturateRow, castInt32, DateTraits32, toInt64cast,
    DAYS_BETWEEN_YEARS_0_AND_1970]
  split_ifs <;> omega

/-- C9: under `Saturate`, every row's value (cast to `Int64`) is clamped
into `[min_days, max_days]` of the instantiated traits — `[719528, 785063]`
for `Date`, `[693961, 840056]` for `Date32` — before
`DAYS_BETWEEN_YEARS_0_AND_1970` is subtracted, so every result lies in the
supported range (`[0, 65535]` for `Date`, `[-25567, 120528]` for `Date32`)
and out-of-range inputs map to the nearest range endpoint. -/
theorem claim_C9 (src : List Int) (i : Nat) (hi : i < src.length) :
    (∀ r ∈ executeSaturate DateTraits castUInt16 src, 0 ≤ r ∧ r ≤ 65535) ∧
    (∀ r ∈ executeSaturate DateTraits32 castInt32 src,
        -25567 ≤ r ∧ r ≤ 120528) ∧
    (executeSaturate DateTraits castUInt16 src).getD i 0 =
      (if toInt64cast (src.getD i 0) < DateTraits.min_days then
          DateTraits.min_days
       else if toInt64cast (src.getD i 0) > DateTraits.max_days then
          DateTraits.max_days
       else toInt64cast (src.getD i 0)) - DAYS_BETWEEN_YEARS_0_AND_1970 ∧
    (executeSaturate DateTraits32 castInt32 src).getD i 0 =
      (if toInt64cast (src.getD i 0) < DateTraits32.min_days then
          DateTraits32.min_days
       else if toInt64cast (src.getD i 0) > DateTraits32.max_days then
          DateTraits32.max_days
       else toInt64cast (src.getD i 0)) - DAYS_BETWEEN_YEARS_0_AND_1970 ∧
    (toInt64cast (src.getD i 0) < DateTraits.min_days →
      (executeSaturate DateTraits castUInt16 src).getD i 0 = 0) ∧
    (toInt64cast (src.getD i 0) > DateTraits.max_days →
      (executeSaturate DateTraits castUInt16 src).getD i 0 = 65535) ∧
    (toInt64cast (src.getD i 0) < DateTraits32.min_days →
      (executeSaturate DateTraits32 castInt32 src).getD i 0 = -25567) ∧
    (toInt64cast (src.getD i 0) > DateTraits32.max_days →
      (executeSaturate DateTraits32 castInt32 src).getD i 0 = 120528) := by
  have h16 : (executeSaturate DateTraits castUInt16 src).getD i 0 =
      saturateRow DateTraits castUInt16 (src.getD i 0) :=
    getD_map _ src i hi
  have h32 : (executeSaturate DateTraits32 castInt32 src).getD i 0 =
      saturateRow DateTraits32 castInt32 (src.getD i 0) :=
    getD_map _ src i hi
  refine ⟨?_, ?_, ?_, ?_, ?_, ?_, ?_, ?_⟩
  · intro r hr
    obtain ⟨raw, _, rfl⟩ := List.mem_map.mp hr
    rw [saturateRow_date]
    simp only [DateTraits, DAYS_BETWEEN_YEARS_0_AND_1970]
    split_ifs <;> omega
  · intro r hr
    obtain ⟨raw, _, rfl⟩ := List.mem_map.mp hr
    rw [saturateRow_date32]
    simp only [DateTraits32, DAYS_BETWEEN_YEARS_0_AND_1970]
    split_ifs <;> omega
  · rw [h16, saturateRow_date]
  · rw [h32, saturateRow_date32]
  · intro hlt
    rw [h16, saturateRow_date, if_pos hlt]
    simp [DateTraits, DAYS_BETWEEN_YEARS_0_AND_1970]
  · intro hgt
    rw [h16, saturateRow_date]
    rw [if_neg (by simp only [DateTraits] at hgt ⊢; omega), if_pos hgt]
    simp [DateTraits, DAYS_BETWEEN_YEARS_0_AND_1970]
  · intro hlt
    rw [h32, saturateRow_date32, if_pos hlt]
    simp [DateTraits32, DAYS_BETWEEN_YEARS_0_AND_1970]
  · intro hgt
    rw [h32, saturateRow_date32]
    rw [if_neg (by simp only [DateTraits32] at hgt ⊢; omega), if_pos hgt]
    simp [DateTraits32, DAYS_BETWEEN_YEARS_0_AND_1970]

/-- Witness for C9: day number 800000 exceeds the `Date` maximum 785063
and saturates to the range endpoint 65535. -/
theorem claim_C9_witness :
    (executeSaturate DateTraits castUInt16 [800000]).getD 0 0 = 65535 :=
  (claim_C9 [800000] 0 (by decide)).2.2.2.2.2.1 (by decide)

theorem throwRaised_eq_any (T : TraitsData) (castRet : Int → Int)
    (src : List Int) :
    throwRaised T castRet src =
      src.any fun raw =>
        decide (toInt64cast raw < T.min_days ∨ toInt64cast raw > T.max_days) := by
  induction src with
  | nil => simp [throwRaised, executeThrow]
  | cons raw rest ih =>
    have step : throwRaised T castRet (raw :: rest) =
        (decide (toInt64cast raw < T.min_days ∨ toInt64cast raw > T.max_days) ||
          throwRaised T castRet rest) := by
      by_cases h : toInt64cast raw < T.min_days ∨ toInt64cast raw > T.max_days
      · simp [throwRaised, executeThrow, h]
      · rcases hrec : executeThrow T castRet rest with e | tl
        · simp [throwRaised, executeThrow, if_neg h, hrec]
        · simp only [throwRaised, executeThrow, if_neg h, hrec]
          simp [hrec]
          omega
    rw [List.any_cons, step, ih]

theorem throwRaised_iff (T : TraitsData) (castRet : Int → Int)
    (src : List Int) :
    throwRaised T castRet src = true ↔
      ∃ raw ∈ src,
        toInt64cast raw < T.min_days ∨ toInt64cast raw > T.max_days := by
  rw [throwRaised_eq_any]
  simp [List.any_eq_true]

theorem executeThrow_all_ok (T : TraitsData) (castRet : Int → Int)
    (src : List Int)
    (h : ∀ raw ∈ src,
        T.min_days ≤ toInt64cast raw ∧ toInt64cast raw ≤ T.max_days) :
    executeThrow T castRet src =
      .ok (src.map fun raw =>
        castRet (toInt64cast raw - DAYS_BETWEEN_YEARS_0_AND_1970)) := by
  induction src with
  | nil => simp [executeThrow]
  | cons raw rest ih =>
    have hhead := h raw (List.mem_cons_self raw rest)
    have htail : ∀ r ∈ rest,
        T.min_days ≤ toInt64cast r ∧ toInt64cast r ≤ T.max_days :=
      fun r hr => h r (List.mem_cons_of_mem raw hr)
    simp only [executeThrow, if_neg (by omega :
      ¬(toInt64cast raw < T.min_days ∨ toInt64cast raw > T.max_days))]
    rw [ih htail]
    simp

/-- C10: under `Throw`, the `VALUE_IS_OUT_OF_RANGE_OF_DATA_TYPE` exception
is raised if and only if some input row's value (cast to `Int64`) lies
outside `[min_days, max_days]` of the instantiated traits; when every row
is in range, the result column holds `value - DAYS_BETWEEN_YEARS_0_AND_1970`
for each row and no exception is raised — for both `DateTraits` and
`DateTraits32`. -/
theorem claim_C10 (src : List Int) :
    (throwRaised DateTraits castUInt16 src = true ↔
      ∃ raw ∈ src,
        toInt64cast raw < DateTraits.min_days ∨
          toInt64cast raw > DateTraits.max_days) ∧
    (throwRaised DateTraits32 castInt32 src = true ↔
      ∃ raw ∈ src,
        toInt64cast raw < DateTraits32.min_days ∨
          toInt64cast raw > DateTraits32.max_days) ∧
    ((∀ raw ∈ src,
        DateTraits.min_days ≤ toInt64cast raw ∧
          toInt64cast raw ≤ DateTraits.max_days) →
      executeThrow DateTraits castUInt16 src =
        .ok (src.map fun raw =>
          toInt64cast raw - DAYS_BETWEEN_YEARS_0_AND_1970)) ∧
    ((∀ raw ∈ src,
        DateTraits32.min_days ≤ toInt64cast raw ∧
          toInt64cast raw ≤ DateTraits32.max_days) →
      executeThrow DateTraits32 castInt32 src =
        .ok (src.map fun raw =>
          toInt64cast raw - DAYS_BETWEEN_YEARS_0_AND_1970)) := by
  refine ⟨throwRaised_iff _ _ _, throwRaised_iff _ _ _, ?_, ?_⟩
  · intro h
    rw [executeThrow_all_ok DateTraits castUInt16 src h]
    congr 1
    refine List.map_congr_left fun raw hraw => ?_
    have := h raw hraw
    simp only [castUInt16, DateTraits, DAYS_BETWEEN_YEARS_0_AND_1970] at *
    omega
  · intro h
    rw [executeThrow_all_ok DateTraits32 castInt32 src h]
    congr 1
    refine List.map_congr_left fun raw hraw => ?_
    have := h raw hraw
    simp only [castInt32, DateTraits32, DAYS_BETWEEN_YEARS_0_AND_1970] at *
    omega

/-- Witness for C10: the two-row column `[719528, 785063]` is fully in the
`Date` range, so the `Throw` run succeeds and writes
`value - DAYS_BETWEEN_YEARS_0_AND_1970` for each row. -/
theorem claim_C10_witness :
    executeThrow DateTraits castUInt16 [719528, 785063] = .ok [0, 65535] := by
  have h := (claim_C10 [719528, 785063]).2.2.1 (by decide)
  rw [h]
  rfl

end FromDays

namespace Coord

theorem alookup_append {α β : Type} [DecidableEq α] (c1 c2 : List (α × β))
    (q : α) :
    alookup (c1 ++ c2) q =
      match alookup c1 q with
      | some v => some v
      | none => alookup c2 q := by
  induction c1 with
  | nil => simp [alookup]
  | cons kv rest ih =>
    obtain ⟨k, v⟩ := kv
    by_cases h : k = q
    · simp [alookup, h]
    · simp only [List.cons_append, alookup, if_neg h]
      exact ih

theorem alookup_aupdate_self {α β : Type} [DecidableEq α]
    {c : List (α × β)} {q : α} {w : β} (v : β)
    (h : alookup c q = some w) :
    alookup (aupdate c q v) q = some v := by
  induction c with
  | nil => simp [alookup] at h
  | cons kv rest ih =>
    obtain ⟨k, w2⟩ := kv
    by_cases hk : k = q
    · simp [alookup, aupdate, hk]
    · simp only [alookup, aupdate, if_neg hk] at h ⊢
      exact ih h

theorem alookup_aupdate_ne {α β : Type} [DecidableEq α]
    (c : List (α × β)) (q r : α) (v : β) (h : r ≠ q) :
    alookup (aupdate c q v) r = alookup c r := by
  induction c with
  | nil => simp [aupdate]
  | cons kv rest ih =>
    obtain ⟨k, w⟩ := kv
    by_cases hk : k = q
    · subst hk
      have hkr : ¬(k = r) := fun hh => h hh.symm
      simp [alookup, aupdate, if_neg hkr]
    · simp only [aupdate, if_neg hk, alookup]
      by_cases hkr : k = r
      · simp [hkr]
      · simp only [if_neg hkr]
        exact ih

theorem alookup_filter_val {α β : Type} [DecidableEq α]
    (c : List (α × β)) (f : α × β → Bool) (q : α) (n : β)
    (h : alookup (c.filter f) q = some n) : f (q, n) = true := by
  induction c with
  | nil => simp [alookup] at h
  | cons kv rest ih =>
    obtain ⟨k, v⟩ := kv
    by_cases hf : f (k, v)
    · rw [List.filter_cons_of_pos hf] at h
      by_cases hk : k = q
      · subst hk
        simp [alookup] at h
        subst h
        exact hf
      · rw [alookup, if_neg hk] at h
        exact ih h
    · rw [List.filter_cons_of_neg hf] at h
      exact ih h

theorem alookup_eq_none_of_not_mem {α β : Type} [DecidableEq α]
    (c : List (α × β)) (q : α) (h : q ∉ c.map Prod.fst) :
    alookup c q = none := by
  induction c with
  | nil => rfl
  | cons kv rest ih =>
    obtain ⟨k, v⟩ := kv
    simp only [List.map_cons, List.mem_cons] at h
    push_neg at h
    rw [alookup, if_neg (fun hk => h.1 hk.symm)]
    exact ih h.2

theorem alookup_filter_none {α β : Type} [DecidableEq α]
    (c : List (α × β)) (f : α × β → Bool) (q : α) (n : β)
    (hnd : (c.map Prod.fst).Nodup)
    (h : alookup c q = some n) (hf : f (q, n) = false) :
    alookup (c.filter f) q = none := by
  induction c with
  | nil => simp [alookup] at h
  | cons kv rest ih =>
    obtain ⟨k, v⟩ := kv
    simp only [List.map_cons, List.nodup_cons] at hnd
    by_cases hk : k = q
    · subst hk
      rw [alookup, if_pos rfl] at h
      obtain rfl : v = n := Option.some.inj h
      rw [List.filter_cons_of_neg (by simp [hf])]
      refine alookup_eq_none_of_not_mem _ _ fun hmem => ?_
      obtain ⟨kv, hkvf, hkveq⟩ := List.mem_map.mp hmem
      exact hnd.1 (List.mem_map.mpr ⟨kv, List.mem_of_mem_filter hkvf, hkveq⟩)
    · have htail := ih hnd.2 (by rwa [alookup, if_neg hk] at h)
      by_cases hfk : f (k, v)
      · rw [List.filter_cons_of_pos hfk, alookup, if_neg hk]
        exact htail
      · rw [List.filter_cons_of_neg hfk]
        exact htail

theorem alookup_aremove_self {α β : Type} [DecidableEq α]
    (c : List (α × β)) (q : α) : alookup (aremove c q) q = none := by
  induction c with
  | nil => rfl
  | cons kv rest ih =>
    obtain ⟨k, v⟩ := kv
    by_cases hk : k = q
    · subst hk
      rw [aremove, List.filter_cons_of_neg (by simp)]
      exact ih
    · rw [aremove, List.filter_cons_of_pos (by simp [hk]), alookup, if_neg hk]
      exact ih

end Coord

namespace Coord

/-- C2: every namespace operation (`create`, `delete`, `setData`) is atomic
with respect to failure — whenever the operation returns a typed failure,
the resulting StateStore is exactly the state before the operation. -/
theorem claim_C2 (st : StateStore) (path : Path) (d : List Nat)
    (isEphemeral isSequential : Bool) (owner : SessionId) (ev : Int)
    (err : KErr) :
    ((create st path d isEphemeral isSequential owner).1 = .error err →
      (create st path d isEphemeral isSequential owner).2 = st) ∧
    ((delete st path ev).1 = .error err → (delete st path ev).2 = st) ∧
    ((setData st path d ev).1 = .error err → (setData st path d ev).2 = st) := by
  refine ⟨?_, ?_, ?_⟩
  · intro he
    unfold create at he ⊢
    rcases hlast : path.getLast? with _ | lastC
    · simp only [hlast]
    · simp only [hlast] at he ⊢
      rcases hp : alookup st.container path.dropLast with _ | pn
      · simp only [hp]
      · simp only [hp] at he ⊢
        rcases hf : alookup st.container
            (if isSequential then
              path.dropLast ++ [⟨lastC.name, some pn.sequenceCounter⟩]
            else path) with _ | n2
        · simp only [hf] at he
          simp at he
        · simp only [hf]
  · intro he
    unfold delete at he ⊢
    rcases hp : alookup st.container path with _ | n
    · simp only [hp]
    · simp only [hp] at he ⊢
      split_ifs at he ⊢ <;> first | rfl | simp_all
  · intro he
    unfold setData at he ⊢
    rcases hp : alookup st.container path with _ | n
    · simp only [hp]
    · simp only [hp] at he ⊢
      split_ifs at he ⊢ <;> first | rfl | simp_all

/-- Witness for C2: creating `/a/b` on a fresh store (whose parent `/a`
is absent) fails with `NoParent` and leaves the store untouched. -/
theorem claim_C2_witness :
    (create (⟨[([], ⟨[], 0, 0, none, 0⟩)]⟩ : StateStore)
        [⟨"a", none⟩, ⟨"b", none⟩] [] false false 7).2 =
      (⟨[([], ⟨[], 0, 0, none, 0⟩)]⟩ : StateStore) :=
  (claim_C2 ⟨[([], ⟨[], 0, 0, none, 0⟩)]⟩ [⟨"a", none⟩, ⟨"b", none⟩] []
    false false 7 (-1) .NoParent).1 (by decide)

/-- C5: `delete` fails `NotFound` on an absent node; on a present node it
fails `VersionMismatch` when `expectedVersion ≠ -1` differs from
`node.version`, fails `NotEmpty` when (the version check passing) the node
has at least one child, and succeeds when the version check passes and all
children are gone. -/
theorem claim_C5 (st : StateStore) (path : Path) (ev : Int) :
    (alookup st.container path = none →
      delete st path ev = (.error .NotFound, st)) ∧
    (∀ n, alookup st.container path = some n → ev ≠ -1 →
      ev ≠ (n.version : Int) →
      delete st path ev = (.error .VersionMismatch, st)) ∧
    (∀ n, alookup st.container path = some n →
      (ev = -1 ∨ ev = (n.version : Int)) →
      hasChild st.container path = true →
      delete st path ev = (.error .NotEmpty, st)) ∧
    (∀ n, alookup st.container path = some n →
      (ev = -1 ∨ ev = (n.version : Int)) →
      hasChild st.container path = false →
      (delete st path ev).1 = .ok ()) := by
  refine ⟨?_, ?_, ?_, ?_⟩
  · intro h
    unfold delete
    simp only [h]
  · intro n h h1 h2
    unfold delete
    simp only [h, if_pos (And.intro h1 h2)]
  · intro n h hor hc
    unfold delete
    have hcond : ¬(ev ≠ -1 ∧ ev ≠ (n.version : Int)) := by
      rcases hor with h0 | h0 <;> simp [h0]
    simp only [h, if_neg hcond, hc, if_true]
  · intro n h hor hc
    have hcond : ¬(ev ≠ -1 ∧ ev ≠ (n.version : Int)) := by
      rcases hor with h0 | h0 <;> simp [h0]
    unfold delete
    simp only [h, if_neg hcond, hc]
    simp

/-- Witness for C5: with a root and a child `/a`, deleting the root fails
`NotEmpty`, while deleting the childless `/a` succeeds. -/
theorem claim_C5_witness :
    delete (⟨[([], ⟨[], 0, 0, none, 0⟩), ([⟨"a", none⟩], ⟨[], 0, 0, none, 0⟩)]⟩ :
        StateStore) [] (-1) =
      (.error .NotEmpty,
        ⟨[([], ⟨[], 0, 0, none, 0⟩), ([⟨"a", none⟩], ⟨[], 0, 0, none, 0⟩)]⟩) ∧
    (delete (⟨[([], ⟨[], 0, 0, none, 0⟩), ([⟨"a", none⟩], ⟨[], 0, 0, none, 0⟩)]⟩ :
        StateStore) [⟨"a", none⟩] (-1)).1 = .ok () :=
  ⟨(claim_C5 ⟨[([], ⟨[], 0, 0, none, 0⟩), ([⟨"a", none⟩], ⟨[], 0, 0, none, 0⟩)]⟩
      [] (-1)).2.2.1 ⟨[], 0, 0, none, 0⟩ (by decide) (Or.inl rfl) (by decide),
    (claim_C5 ⟨[([], ⟨[], 0, 0, none, 0⟩), ([⟨"a", none⟩], ⟨[], 0, 0, none, 0⟩)]⟩
      [⟨"a", none⟩] (-1)).2.2.2 ⟨[], 0, 0, none, 0⟩ (by decide) (Or.inl rfl)
      (by decide)⟩

/-- C8: `putRequest` fails with `NotLeader` on a non-leader replica,
returning the server state unchanged (the request is never silently
dropped); on the leader it appends the operation to the proposals accepted
for replication and returns without touching the state machine (commit is
asynchronous). -/
theorem claim_C8 (srv : ConsensusServer) (sid : SessionId) (op : Operation) :
    (srv.leader = false →
      putRequest srv sid op = (.error .NotLeader, srv)) ∧
    (srv.leader = true →
      putRequest srv sid op =
        (.ok (), { srv with proposals := srv.proposals ++ [(sid, op)] }) ∧
      (putRequest srv sid op).2.machine = srv.machine ∧
      (sid, op) ∈ (putRequest srv sid op).2.proposals) := by
  constructor
  · intro h
    simp [putRequest, h]
  · intro h
    refine ⟨by simp [putRequest, h], by simp [putRequest, h], ?_⟩
    simp [putRequest, h]

/-- Witness for C8: a non-leader replica rejects a request with
`NotLeader` and keeps its state. -/
theorem claim_C8_witness :
    putRequest ⟨false, [], freshState⟩ 1 (.newSession 5000) =
      (.error .NotLeader, ⟨false, [], freshState⟩) :=
  (claim_C8 ⟨false, [], freshState⟩ 1 (.newSession 5000)).1 rfl

end Coord

namespace Coord

theorem replayRun_replay (es : List LogEntry) (sm : StateMachine) :
    ReplayRun sm es (replay es sm) := by
  induction es generalizing sm with
  | nil => exact .nil sm
  | cons e rest ih =>
    exact .cons rfl (ih (stepState sm e))

theorem replayRun_deterministic {sm : StateMachine} {es : List LogEntry}
    {t1 t2 : StateMachine} (h1 : ReplayRun sm es t1)
    (h2 : ReplayRun sm es t2) : t1 = t2 := by
  induction h1 generalizing t2 with
  | nil => cases h2; rfl
  | cons hstep hrest ih =>
    cases h2 with
    | cons hstep2 hrest2 =>
      exact ih (by rwa [← hstep2, hstep] at hrest2)

/-- C1: applying a sequence of committed entries, in index order, to a
fresh StateStore is a deterministic function of the sequence alone — any
two replica runs over the same committed entries from the fresh state end
in identical final states. -/
theorem claim_C1 (es : List LogEntry) (t1 t2 : StateMachine)
    (h1 : ReplayRun freshState es t1) (h2 : ReplayRun freshState es t2) :
    t1 = t2 :=
  replayRun_deterministic h1 h2

/-- Witness for C1: two runs over the same one-entry committed log end in
the same state. -/
theorem claim_C1_witness :
    replay [⟨1, 0, .create [⟨"a", none⟩] [1] false false, 0, 0⟩]
        freshState =
      replay [⟨1, 0, .create [⟨"a", none⟩] [1] false false, 0, 0⟩]
        freshState :=
  claim_C1 [⟨1, 0, .create [⟨"a", none⟩] [1] false false, 0, 0⟩] _ _
    (replayRun_replay _ _) (replayRun_replay _ _)

/-- C3: `restore (takeSnapshot sm)` reproduces `sm` exactly (same tree,
same session table, same `lastAppliedIndex`); and restoring the snapshot
taken after a committed prefix and then replaying exactly the entries with
index greater than the snapshot's last-applied index reaches the same
state as replaying the full sequence without ever snapshotting. -/
theorem claim_C3 :
    (∀ sm : StateMachine, restore (takeSnapshot sm) = sm) ∧
    (∀ p q : List LogEntry,
      (∀ e ∈ p, e.index ≤ (replay p freshState).lastAppliedIndex) →
      (∀ e ∈ q, (replay p freshState).lastAppliedIndex < e.index) →
      replay
          ((p ++ q).filter fun e =>
            decide ((takeSnapshot (replay p freshState)).lastApplied < e.index))
          (restore (takeSnapshot (replay p freshState))) =
        replay (p ++ q) freshState) := by
  constructor
  · intro sm
    rfl
  · intro p q hp hq
    have hfp : p.filter (fun e =>
        decide ((takeSnapshot (replay p freshState)).lastApplied < e.index)) =
        [] := by
      rw [List.filter_eq_nil]
      intro e he
      have := hp e he
      simp only [takeSnapshot, decide_eq_true_eq]
      omega
    have hfq : q.filter (fun e =>
        decide ((takeSnapshot (replay p freshState)).lastApplied < e.index)) =
        q := by
      rw [List.filter_eq_self]
      intro e he
      have := hq e he
      simp only [takeSnapshot, decide_eq_true_eq]
      omega
    rw [List.filter_append, hfp, hfq, List.nil_append]
    show replay q (restore (takeSnapshot (replay p freshState))) = _
    rw [show restore (takeSnapshot (replay p freshState)) =
        replay p freshState from rfl]
    rw [replay, replay, replay, List.foldl_append]

/-- Witness for C3: snapshot after one committed entry, then replay the
strictly later entry — same state as the full two-entry replay. -/
theorem claim_C3_witness :
    replay
        ((([⟨1, 0, .newSession 5000, 0, 0⟩] : List LogEntry) ++
            ([⟨2, 0, .newSession 5000, 0, 1⟩] : List LogEntry)).filter
          fun e =>
            decide ((takeSnapshot
                (replay ([⟨1, 0, .newSession 5000, 0, 0⟩] : List LogEntry)
                  freshState)).lastApplied <
              e.index))
        (restore (takeSnapshot
          (replay ([⟨1, 0, .newSession 5000, 0, 0⟩] : List LogEntry)
            freshState))) =
      replay (([⟨1, 0, .newSession 5000, 0, 0⟩] : List LogEntry) ++
          ([⟨2, 0, .newSession 5000, 0, 1⟩] : List LogEntry))
        freshState :=
  claim_C3.2 ([⟨1, 0, .newSession 5000, 0, 0⟩] : List LogEntry)
    ([⟨2, 0, .newSession 5000, 0, 1⟩] : List LogEntry)
    (by decide) (by decide)

end Coord

namespace Coord

/-- C6: applying a committed `closeSession(target)` entry removes every
ephemeral node owned by `target` (afterwards no node in the tree has
`ephemeralOwner = target`, and `exists` answers `NotFound` on every path
that held an ephemeral node of `target`) and removes `target` from the
session table. -/
theorem claim_C6 (sm : StateMachine) (e : LogEntry) (target : SessionId)
    (hop : e.op = .closeSession target)
    (hidx : sm.lastAppliedIndex < e.index)
    (hnd : (sm.store.container.map Prod.fst).Nodup) :
    (∀ p n, alookup (stepState sm e).store.container p = some n →
      n.ephemeralOwner ≠ some target) ∧
    (∀ p n, alookup sm.store.container p = some n →
      n.ephemeralOwner = some target →
      existsOp (stepState sm e).store p = .error .NotFound) ∧
    alookup (stepState sm e).registry.sessions target = none := by
  have hnotle : ¬ e.index ≤ sm.lastAppliedIndex := by omega
  have hstore : (stepState sm e).store.container =
      sm.store.container.filter
        (fun kv => decide (kv.2.ephemeralOwner ≠ some target)) := by
    simp [stepState, applyEntry, hnotle, hop, applyOp]
  have hsess : (stepState sm e).registry.sessions =
      aremove sm.registry.sessions target := by
    simp [stepState, applyEntry, hnotle, hop, applyOp]
  refine ⟨?_, ?_, ?_⟩
  · intro p n h
    rw [hstore] at h
    have := alookup_filter_val _ _ _ _ h
    simpa using this
  · intro p n h howner
    have hnone : alookup (stepState sm e).store.container p = none := by
      rw [hstore]
      exact alookup_filter_none _ _ _ _ hnd h (by simp [howner])
    unfold existsOp
    rw [hnone]
  · rw [hsess]
    exact alookup_aremove_self _ _

/-- Witness for C6: closing session 3 deletes the ephemeral node `/l` it
owned (`exists` now answers `NotFound`) and removes the session. -/
theorem claim_C6_witness :
    existsOp
        (stepState
          ⟨0, ⟨[([], ⟨[], 0, 0, none, 0⟩), ([⟨"l", none⟩], ⟨[], 0, 0, some 3, 0⟩)]⟩,
            ⟨[(3, ⟨5000, 0⟩)], 4⟩, []⟩
          ⟨1, 0, .closeSession 3, 3, 0⟩).store
        [⟨"l", none⟩] = .error .NotFound ∧
    alookup
        (stepState
          ⟨0, ⟨[([], ⟨[], 0, 0, none, 0⟩), ([⟨"l", none⟩], ⟨[], 0, 0, some 3, 0⟩)]⟩,
            ⟨[(3, ⟨5000, 0⟩)], 4⟩, []⟩
          ⟨1, 0, .closeSession 3, 3, 0⟩).registry.sessions 3 = none :=
  ⟨((claim_C6
      ⟨0, ⟨[([], ⟨[], 0, 0, none, 0⟩), ([⟨"l", none⟩], ⟨[], 0, 0, some 3, 0⟩)]⟩,
        ⟨[(3, ⟨5000, 0⟩)], 4⟩, []⟩
      ⟨1, 0, .closeSession 3, 3, 0⟩ 3 rfl (by decide) (by decide)).2.1)
      [⟨"l", none⟩] ⟨[], 0, 0, some 3, 0⟩ (by decide) rfl,
    (claim_C6
      ⟨0, ⟨[([], ⟨[], 0, 0, none, 0⟩), ([⟨"l", none⟩], ⟨[], 0, 0, some 3, 0⟩)]⟩,
        ⟨[(3, ⟨5000, 0⟩)], 4⟩, []⟩
      ⟨1, 0, .closeSession 3, 3, 0⟩ 3 rfl (by decide) (by decide)).2.2⟩

end Coord

namespace Coord

/-- C4: two successive sequential creates under the same parent (in
committed order) each append a suffix taken from the parent's
`sequenceCounter`, which is incremented by the create, so the two created
paths are distinct and their numeric suffixes strictly increase. -/
theorem claim_C4 (st : StateStore) (pp : Path) (nm : String)
    (d d2 : List Nat) (isEph isEph2 : Bool) (o1 o2 : SessionId) (pn : Node)
    (hp : alookup st.container pp = some pn)
    (h1 : alookup st.container (pp ++ [⟨nm, some pn.sequenceCounter⟩]) = none)
    (h2 : alookup st.container
      (pp ++ [⟨nm, some (pn.sequenceCounter + 1)⟩]) = none) :
    ∃ st1 st2 : StateStore,
      create st (pp ++ [⟨nm, none⟩]) d isEph true o1 =
        (.ok (pp ++ [⟨nm, some pn.sequenceCounter⟩]), st1) ∧
      create st1 (pp ++ [⟨nm, none⟩]) d2 isEph2 true o2 =
        (.ok (pp ++ [⟨nm, some (pn.sequenceCounter + 1)⟩]), st2) ∧
      (∃ pn1, alookup st1.container pp = some pn1 ∧
        pn1.sequenceCounter = pn.sequenceCounter + 1) ∧
      pp ++ [(⟨nm, some pn.sequenceCounter⟩ : Component)] ≠
        pp ++ [⟨nm, some (pn.sequenceCounter + 1)⟩] ∧
      pn.sequenceCounter < pn.sequenceCounter + 1 := by
  have hlast : (pp ++ [(⟨nm, none⟩ : Component)]).getLast? =
      some ⟨nm, none⟩ := by simp
  have hdrop : (pp ++ [(⟨nm, none⟩ : Component)]).dropLast = pp := by simp
  have hne : ∀ c : Component, ¬(pp ++ [c] = pp) := by
    intro c h
    have hlen := congrArg List.length h
    simp at hlen
  have hp1p2 : ¬((pp ++ [(⟨nm, some pn.sequenceCounter⟩ : Component)]) =
      pp ++ [⟨nm, some (pn.sequenceCounter + 1)⟩]) := by
    intro h
    rw [List.append_right_inj] at h
    simp at h
  have e1 : create st (pp ++ [⟨nm, none⟩]) d isEph true o1 =
      (.ok (pp ++ [⟨nm, some pn.sequenceCounter⟩]),
        ⟨aupdate st.container pp
            { pn with
              cversion := pn.cversion + 1
              sequenceCounter := pn.sequenceCounter + 1 } ++
          [(pp ++ [⟨nm, some pn.sequenceCounter⟩],
            ⟨d, 0, 0, if isEph then some o1 else none, 0⟩)]⟩) := by
    unfold create
    rw [hlast]
    simp only [if_true, hdrop, hp, h1]
  have hp1 : alookup
      (aupdate st.container pp
          { pn with
            cversion := pn.cversion + 1
            sequenceCounter := pn.sequenceCounter + 1 } ++
        [(pp ++ [⟨nm, some pn.sequenceCounter⟩],
          ⟨d, 0, 0, if isEph then some o1 else none, 0⟩)]) pp =
      some
        { pn with
          cversion := pn.cversion + 1
          sequenceCounter := pn.sequenceCounter + 1 } := by
    rw [alookup_append, alookup_aupdate_self _ hp]
  have hp2 : alookup
      (aupdate st.container pp
          { pn with
            cversion := pn.cversion + 1
            sequenceCounter := pn.sequenceCounter + 1 } ++
        [(pp ++ [⟨nm, some pn.sequenceCounter⟩],
          ⟨d, 0, 0, if isEph then some o1 else none, 0⟩)])
      (pp ++ [⟨nm, some (pn.sequenceCounter + 1)⟩]) = none := by
    rw [alookup_append,
      alookup_aupdate_ne _ _ _ _ (hne ⟨nm, some (pn.sequenceCounter + 1)⟩), h2]
    simp [alookup, hp1p2]
  have e2 : create
      (⟨aupdate st.container pp
          { pn with
            cversion := pn.cversion + 1
            sequenceCounter := pn.sequenceCounter + 1 } ++
        [(pp ++ [⟨nm, some pn.sequenceCounter⟩],
          ⟨d, 0, 0, if isEph then some o1 else none, 0⟩)]⟩ : StateStore)
      (pp ++ [⟨nm, none⟩]) d2 isEph2 true o2 =
      (.ok (pp ++ [⟨nm, some (pn.sequenceCounter + 1)⟩]),
        ⟨aupdate
            (aupdate st.container pp
                { pn with
                  cversion := pn.cversion + 1
                  sequenceCounter := pn.sequenceCounter + 1 } ++
              [(pp ++ [⟨nm, some pn.sequenceCounter⟩],
                ⟨d, 0, 0, if isEph then some o1 else none, 0⟩)]) pp
            { pn with
              cversion := pn.cversion + 1 + 1
              sequenceCounter := pn.sequenceCounter + 1 + 1 } ++
          [(pp ++ [⟨nm, some (pn.sequenceCounter + 1)⟩],
            ⟨d2, 0, 0, if isEph2 then some o2 else none, 0⟩)]⟩) := by
    unfold create
    rw [hlast]
    simp only [if_true, hdrop, hp1, hp2]
  exact ⟨_, _, e1, e2, ⟨_, hp1, rfl⟩, hp1p2, Nat.lt_succ_self _⟩

/-- Witness for C4: two sequential creates of `/q` under the root of a
fresh store yield suffixes 0 and 1. -/
theorem claim_C4_witness :
    ∃ st1 st2 : StateStore,
      create (⟨[([], ⟨[], 0, 0, none, 0⟩)]⟩ : StateStore) [⟨"q", none⟩] []
          false true 1 = (.ok [⟨"q", some 0⟩], st1) ∧
      create st1 [⟨"q", none⟩] [] false true 1 =
        (.ok [⟨"q", some 1⟩], st2) ∧
      (∃ pn1, alookup st1.container [] = some pn1 ∧
        pn1.sequenceCounter = 0 + 1) ∧
      ([] : Path) ++ [(⟨"q", some 0⟩ : Component)] ≠
        ([] : Path) ++ [⟨"q", some (0 + 1)⟩] ∧
      (0 : Nat) < 0 + 1 :=
  claim_C4 ⟨[([], ⟨[], 0, 0, none, 0⟩)]⟩ [] "q" [] [] false false 1 1
    ⟨[], 0, 0, none, 0⟩ (by decide) (by decide) (by decide)

end Coord

namespace Coord

end Coord
